import Mathlib

/-!
Verification development for the SmartMeet signaling relay
(`src/server/index.js`): an in-memory room/participant directory that
brokers WebRTC offer/answer/ICE-candidate exchange over Socket.IO.

The server state is embedded shallowly:
* `rooms` is the `const rooms = new Map()` directory, modelled as an
  association list (JavaScript `Map` preserves insertion order and keeps
  keys unique; `setA`/`eraseA` below implement `Map.set`/`Map.delete`
  with exactly that discipline).
* every connected socket carries the ad-hoc fields the handlers store on
  it (`socket.roomName`, `socket.participantName`) plus the set of
  Socket.IO rooms it is a member of (`socket.join`/`socket.leave`;
  every socket is automatically in the room named by its own id).
* `socket.to(r).emit(ev, payload)` delivers to every socket that is a
  member of Socket.IO room `r` except the sender; `socket.emit` delivers
  to the socket itself.  Emitted messages are collected in a list.
* `new Date()` timestamps are passed in as a `now : Nat` argument of the
  `join-room` event.
-/

structure Participant where
  id : String
  name : String
  joinedAt : Nat
deriving DecidableEq, Repr

structure Room where
  name : String
  participants : List (String × Participant)
  createdAt : Nat
deriving DecidableEq, Repr

structure SocketState where
  id : String
  roomName : Option String
  participantName : Option String
  sioRooms : List String
deriving DecidableEq, Repr

structure ServerState where
  rooms : List (String × Room)
  sockets : List (String × SocketState)
deriving DecidableEq, Repr

/-- Lookup in an association list (`Map.get` / `Map.has`). -/
def findA {α : Type} : List (String × α) → String → Option α
  | [], _ => none
  | (k', v) :: rest, k => if k' = k then some v else findA rest k

/-- `Map.set`: replace the entry in place if the key is present,
append at the end otherwise. -/
def setA {α : Type} : List (String × α) → String → α → List (String × α)
  | [], k, v => [(k, v)]
  | (k', v') :: rest, k, v =>
      if k' = k then (k, v) :: rest else (k', v') :: setA rest k v

/-- `Map.delete`: remove the entry with the given key. -/
def eraseA {α : Type} : List (String × α) → String → List (String × α)
  | [], _ => []
  | (k', v') :: rest, k => if k' = k then rest else (k', v') :: eraseA rest k

/-- The socket ids of the members of a Socket.IO room. -/
def roomMembers (s : ServerState) (r : String) : List String :=
  (s.sockets.filter (fun p => p.2.sioRooms.contains r)).map Prod.fst

/-- Recipients of `socket.to(r).emit(...)` sent by `sender`:
everyone in Socket.IO room `r` except the sender. -/
def broadcastTo (s : ServerState) (sender r : String) : List String :=
  (roomMembers s r).filter (fun i => i ≠ sender)

def connected (s : ServerState) (sid : String) : Bool :=
  (findA s.sockets sid).isSome

/-- Payloads of the events the server emits. -/
inductive Payload where
  | userJoined (id name : String)
  | roomJoined (roomName : String) (participants : List Participant) (yourId : String)
  | webrtcOffer (offer sender : String)
  | webrtcAnswer (answer sender : String)
  | webrtcIceCandidate (candidate sender : String)
  | userLeft (id : String) (name : Option String)
deriving DecidableEq, Repr

/-- One `emit` performed by the server: event name, the socket ids the
message is delivered to, and the payload. -/
structure Emit where
  event : String
  recipients : List String
  payload : Payload
deriving DecidableEq, Repr

/-- The incoming events handled in `io.on('connection', ...)`, plus the
connection itself. -/
inductive Event where
  | connect (sid : String)
  | joinRoom (sid roomName participantName : String) (now : Nat)
  | webrtcOffer (sid target offer : String)
  | webrtcAnswer (sid target answer : String)
  | webrtcIceCandidate (sid target candidate : String)
  | disconnect (sid : String)
  | leaveRoom (sid : String)
deriving DecidableEq, Repr

/-- `getRoomInfo(roomName)`: create the room if missing, return it
together with the (possibly extended) directory. -/
def getRoomInfo (rooms : List (String × Room)) (roomName : String) (now : Nat) :
    Room × List (String × Room) :=
  match findA rooms roomName with
  | some r => (r, rooms)
  | none =>
      let r : Room := { name := roomName, participants := [], createdAt := now }
      (r, setA rooms roomName r)

/-- One step of the server: dispatch an incoming event to its handler.
Events from a socket id that is not connected are ignored (Socket.IO only
registers the handlers on connected sockets). -/
def step (s : ServerState) (e : Event) : ServerState × List Emit :=
  match e with
  | .connect sid =>
      let sock : SocketState :=
        { id := sid, roomName := none, participantName := none, sioRooms := [sid] }
      ({ s with sockets := setA s.sockets sid sock }, [])
  | .joinRoom sid roomName participantName now =>
      match findA s.sockets sid with
      | none => (s, [])
      | some sock =>
          let rr := getRoomInfo s.rooms roomName now
          let room' : Room := { rr.1 with
            participants := setA rr.1.participants sid
              { id := sid, name := participantName, joinedAt := now } }
          let sock' : SocketState := { sock with
            roomName := some roomName,
            participantName := some participantName,
            sioRooms := if sock.sioRooms.contains roomName
                        then sock.sioRooms else sock.sioRooms ++ [roomName] }
          let s' : ServerState :=
            { rooms := setA rr.2 roomName room', sockets := setA s.sockets sid sock' }
          let others := (room'.participants.map Prod.snd).filter (fun p => p.id ≠ sid)
          (s', [ { event := "user-joined",
                   recipients := broadcastTo s' sid roomName,
                   payload := .userJoined sid participantName },
                 { event := "room-joined",
                   recipients := [sid],
                   payload := .roomJoined roomName others sid } ])
  | .webrtcOffer sid target offer =>
      match findA s.sockets sid with
      | none => (s, [])
      | some _ =>
          (s, [ { event := "webrtc-offer",
                  recipients := broadcastTo s sid target,
                  payload := .webrtcOffer offer sid } ])
  | .webrtcAnswer sid target answer =>
      match findA s.sockets sid with
      | none => (s, [])
      | some _ =>
          (s, [ { event := "webrtc-answer",
                  recipients := broadcastTo s sid target,
                  payload := .webrtcAnswer answer sid } ])
  | .webrtcIceCandidate sid target candidate =>
      match findA s.sockets sid with
      | none => (s, [])
      | some _ =>
          (s, [ { event := "webrtc-ice-candidate",
                  recipients := broadcastTo s sid target,
                  payload := .webrtcIceCandidate candidate sid } ])
  | .disconnect sid =>
      match findA s.sockets sid with
      | none => (s, [])
      | some sock =>
          let sockets' := eraseA s.sockets sid
          match sock.roomName with
          | none => ({ s with sockets := sockets' }, [])
          | some rn =>
            -- `if (socket.roomName)` in JavaScript: the empty string is
            -- falsy, so the whole cleanup is skipped for room name ""
            if rn = "" then ({ s with sockets := sockets' }, []) else
              match findA s.rooms rn with
              | none => ({ s with sockets := sockets' }, [])
              | some room =>
                  let room' : Room :=
                    { room with participants := eraseA room.participants sid }
                  let rooms' :=
                    if room'.participants.isEmpty
                    then eraseA s.rooms rn
                    else setA s.rooms rn room'
                  let s' : ServerState := { rooms := rooms', sockets := sockets' }
                  (s', [ { event := "user-left",
                           recipients := broadcastTo s' sid rn,
                           payload := .userLeft sid sock.participantName } ])
  | .leaveRoom sid =>
      match findA s.sockets sid with
      | none => (s, [])
      | some sock =>
          match sock.roomName with
          | none => (s, [])
          | some rn =>
            -- `if (socket.roomName)`: falsy for "", handler body skipped
            if rn = "" then (s, []) else
              match findA s.rooms rn with
              | none => (s, [])
              | some room =>
                  let room' : Room :=
                    { room with participants := eraseA room.participants sid }
                  let sock' : SocketState :=
                    { sock with sioRooms := sock.sioRooms.erase rn }
                  ({ rooms := setA s.rooms rn room',
                     sockets := setA s.sockets sid sock' },
                   [ { event := "user-left",
                       recipients := broadcastTo s sid rn,
                       payload := .userLeft sid sock.participantName } ])

def initState : ServerState := { rooms := [], sockets := [] }

/-- Run a trace of events from a state. -/
def run (s : ServerState) : List Event → ServerState
  | [] => s
  | e :: rest => run (step s e).1 rest

/-- All messages emitted while running a trace. -/
def runEmits (s : ServerState) : List Event → List Emit
  | [] => []
  | e :: rest => (step s e).2 ++ runEmits (step s e).1 rest

/-- Response of `GET /api/rooms/:roomName`. -/
inductive ApiResponse where
  | notFound (error : String)
  | roomInfo (name : String) (participantCount : Nat)
      (participants : List String) (createdAt : Nat)
deriving DecidableEq, Repr

/-- `app.get('/api/rooms/:roomName')`: the handler only reads the
directory; the state component records that it is returned unchanged. -/
def getRoomApi (s : ServerState) (roomName : String) : ApiResponse × ServerState :=
  match findA s.rooms roomName with
  | none => (.notFound "Room not found", s)
  | some room =>
      (.roomInfo room.name room.participants.length
        (room.participants.map Prod.fst) room.createdAt, s)

/-- `app.get('/api/rooms')`: name, participant count and creation time of
every active room. -/
def listRoomsApi (s : ServerState) : List (String × Nat × Nat) :=
  s.rooms.map (fun p => (p.2.name, p.2.participants.length, p.2.createdAt))

/-!
## Spec-side participant tracking (claim C2)

The spec's invariant reads "the key set of a room's participants map is
exactly the set of ids of currently connected sockets whose most recent
`join-room` named that room and that have not since sent `leave-room` or
disconnected".  `specStatus tr sid` computes that, straight from the
words: a pair of the room per the spec (if any) and a connected flag.
-/

def specStep (sid : String) (st : Option String × Bool) : Event → Option String × Bool
  | .connect sid' => if sid' = sid then (none, true) else st
  | .joinRoom sid' rn _ _ => if sid' = sid ∧ st.2 = true then (some rn, true) else st
  | .leaveRoom sid' => if sid' = sid ∧ st.2 = true then (none, true) else st
  | .disconnect sid' => if sid' = sid then (none, false) else st
  | _ => st

def specStatus (tr : List Event) (sid : String) : Option String × Bool :=
  tr.foldl (specStep sid) (none, false)

/-- `sid` currently has a participant entry in some room of the directory. -/
def inAnyRoom (s : ServerState) (sid : String) : Bool :=
  s.rooms.any (fun p => (findA p.2.participants sid).isSome)

/-- Trace well-formedness from a state: a `connect` only introduces a
fresh socket id, and a socket only sends `join-room` (a) while it has no
participant entry anywhere (it is freshly connected, or has left /
everything it joined) and (b) with a non-empty room name.  (a) is the
single-join discipline and (b) avoids the room named "", which the
cleanup handlers never touch because `if (socket.roomName)` is falsy
for the empty string; under these the spec's invariant holds. -/
def okGuard (s : ServerState) : Event → Bool
  | .connect sid => !(connected s sid)
  | .joinRoom sid rn _ _ => !(inAnyRoom s sid) && !(rn == "")
  | _ => true

def okFrom (s : ServerState) : List Event → Bool
  | [] => true
  | e :: rest => okGuard s e && okFrom (step s e).1 rest

/-!
## Association-list lemmas
-/

theorem findA_setA_self {α : Type} (l : List (String × α)) (k : String) (v : α) :
    findA (setA l k v) k = some v := by
  induction l with
  | nil => simp [setA, findA]
  | cons p rest ih =>
      obtain ⟨k', v'⟩ := p
      by_cases h : k' = k
      · simp [setA, h, findA]
      · simp [setA, h, findA, ih]

theorem findA_setA_ne {α : Type} (l : List (String × α)) (k k' : String) (v : α)
    (h : k' ≠ k) : findA (setA l k v) k' = findA l k' := by
  have h' : k ≠ k' := Ne.symm h
  induction l with
  | nil => simp [setA, findA, h']
  | cons p rest ih =>
      obtain ⟨k'', v''⟩ := p
      by_cases hk : k'' = k
      · subst hk
        simp [setA, findA, h']
      · simp [setA, hk, findA, ih]

theorem findA_eraseA_ne {α : Type} (l : List (String × α)) (k k' : String)
    (h : k' ≠ k) : findA (eraseA l k) k' = findA l k' := by
  have h' : k ≠ k' := Ne.symm h
  induction l with
  | nil => simp [eraseA]
  | cons p rest ih =>
      obtain ⟨k'', v''⟩ := p
      by_cases hk : k'' = k
      · subst hk
        simp [eraseA, findA, h']
      · simp [eraseA, hk, findA, ih]

theorem findA_eq_none_of_not_mem {α : Type} (l : List (String × α)) (k : String)
    (h : k ∉ l.map Prod.fst) : findA l k = none := by
  induction l with
  | nil => rfl
  | cons p rest ih =>
      obtain ⟨k', v'⟩ := p
      simp only [List.map_cons, List.mem_cons] at h
      push_neg at h
      simp [findA, Ne.symm h.1, ih h.2]

theorem mem_keys_of_findA {α : Type} (l : List (String × α)) (k : String) (v : α)
    (h : findA l k = some v) : k ∈ l.map Prod.fst := by
  induction l with
  | nil => simp [findA] at h
  | cons p rest ih =>
      obtain ⟨k', v'⟩ := p
      by_cases hk : k' = k
      · simp [hk]
      · simp only [findA, if_neg hk] at h
        simp [ih h]

theorem findA_mem {α : Type} (l : List (String × α)) (k : String) (v : α)
    (h : findA l k = some v) : (k, v) ∈ l := by
  induction l with
  | nil => simp [findA] at h
  | cons p rest ih =>
      obtain ⟨k', v'⟩ := p
      by_cases hk : k' = k
      · subst hk
        simp [findA] at h
        simp [h]
      · simp only [findA, if_neg hk] at h
        exact List.mem_cons_of_mem _ (ih h)

theorem findA_eraseA_self {α : Type} (l : List (String × α)) (k : String)
    (h : (l.map Prod.fst).Nodup) : findA (eraseA l k) k = none := by
  induction l with
  | nil => rfl
  | cons p rest ih =>
      obtain ⟨k', v'⟩ := p
      simp only [List.map_cons, List.nodup_cons] at h
      by_cases hk : k' = k
      · subst hk
        simp only [eraseA, if_pos rfl]
        exact findA_eq_none_of_not_mem rest k' h.1
      · simp [eraseA, hk, findA, ih h.2]

theorem keys_setA_sub {α : Type} (l : List (String × α)) (k : String) (v : α) :
    ∀ x ∈ (setA l k v).map Prod.fst, x = k ∨ x ∈ l.map Prod.fst := by
  induction l with
  | nil => simp [setA]
  | cons p rest ih =>
      obtain ⟨k', v'⟩ := p
      by_cases hk : k' = k
      · subst hk
        simp only [setA, if_pos rfl, List.map_cons]
        intro x hx
        rcases List.mem_cons.1 hx with h | h
        · exact Or.inl h
        · exact Or.inr (List.mem_cons_of_mem _ h)
      · simp only [setA, if_neg hk, List.map_cons]
        intro x hx
        rcases List.mem_cons.1 hx with h | h
        · exact Or.inr (by simp [h])
        · rcases ih x h with h' | h'
          · exact Or.inl h'
          · exact Or.inr (List.mem_cons_of_mem _ h')

theorem keys_eraseA_sub {α : Type} (l : List (String × α)) (k : String) :
    ∀ x ∈ (eraseA l k).map Prod.fst, x ∈ l.map Prod.fst := by
  induction l with
  | nil => simp [eraseA]
  | cons p rest ih =>
      obtain ⟨k', v'⟩ := p
      by_cases hk : k' = k
      · subst hk
        simp only [eraseA, if_pos rfl, List.map_cons]
        intro x hx
        exact List.mem_cons_of_mem _ hx
      · simp only [eraseA, if_neg hk, List.map_cons]
        intro x hx
        rcases List.mem_cons.1 hx with h | h
        · exact List.mem_cons.2 (Or.inl h)
        · exact List.mem_cons.2 (Or.inr (ih x h))

theorem nodup_keys_setA {α : Type} (l : List (String × α)) (k : String) (v : α)
    (h : (l.map Prod.fst).Nodup) : ((setA l k v).map Prod.fst).Nodup := by
  induction l with
  | nil => simp [setA]
  | cons p rest ih =>
      obtain ⟨k', v'⟩ := p
      simp only [List.map_cons, List.nodup_cons] at h
      by_cases hk : k' = k
      · subst hk
        have hset : setA ((k', v') :: rest) k' v = (k', v) :: rest := by
          simp [setA]
        rw [hset]
        simp only [List.map_cons, List.nodup_cons]
        exact ⟨h.1, h.2⟩
      · simp only [setA, if_neg hk, List.map_cons, List.nodup_cons]
        refine ⟨fun hm => ?_, ih h.2⟩
        rcases keys_setA_sub rest k v k' hm with h' | h'
        · exact hk h'
        · exact h.1 h'

theorem nodup_keys_eraseA {α : Type} (l : List (String × α)) (k : String)
    (h : (l.map Prod.fst).Nodup) : ((eraseA l k).map Prod.fst).Nodup := by
  induction l with
  | nil => simp [eraseA]
  | cons p rest ih =>
      obtain ⟨k', v'⟩ := p
      simp only [List.map_cons, List.nodup_cons] at h
      by_cases hk : k' = k
      · subst hk
        simpa [eraseA] using h.2
      · simp only [eraseA, if_neg hk, List.map_cons, List.nodup_cons]
        exact ⟨fun hm => h.1 (keys_eraseA_sub rest k k' hm), ih h.2⟩

/-!
## The directory invariant (claim C2)

`RelayInv s f` links a server state to a per-socket spec status `f`:
the connected flag agrees with the socket table, a socket is a
participant of exactly the room its spec status names, sockets named by
the status record that room in `socket.roomName`, all key lists are
duplicate free, and no room is keyed by the empty string (guarded
traces never join it, and `getRoomInfo` is the only room creator).
-/

structure RelayInv (s : ServerState) (f : String → Option String × Bool) : Prop where
  conn : ∀ sid, connected s sid = (f sid).2
  mem : ∀ sid rn, f sid = (some rn, true) ↔
      ∃ room, findA s.rooms rn = some room ∧ (findA room.participants sid).isSome = true
  sockRoom : ∀ sid rn, f sid = (some rn, true) →
      ∃ sock, findA s.sockets sid = some sock ∧ sock.roomName = some rn
  roomsNodup : (s.rooms.map Prod.fst).Nodup
  socketsNodup : (s.sockets.map Prod.fst).Nodup
  partsNodup : ∀ rn room, findA s.rooms rn = some room →
      (room.participants.map Prod.fst).Nodup
  noEmptyRoom : findA s.rooms "" = none

theorem inAnyRoom_false {s : ServerState} {sid : String} (h : inAnyRoom s sid = false)
    {rn : String} {room : Room} (hr : findA s.rooms rn = some room) :
    findA room.participants sid = none := by
  have hmem := findA_mem s.rooms rn room hr
  simp only [inAnyRoom, List.any_eq_false] at h
  have h2 := h (rn, room) hmem
  simpa using h2

theorem relayInv_connect (s : ServerState) (f : String → Option String × Bool)
    (sid0 : String) (hInv : RelayInv s f) (hok : connected s sid0 = false) :
    RelayInv (step s (.connect sid0)).1
      (fun sid => specStep sid (f sid) (.connect sid0)) := by
  obtain ⟨ha, hb, hd, hnr, hns, hnp, hne0⟩ := hInv
  constructor
  · intro sid
    by_cases h : sid0 = sid
    · subst h
      simp [step, connected, specStep, findA_setA_self]
    · simp only [step, connected, specStep]
      rw [if_neg h, findA_setA_ne _ _ _ _ (fun hh => h hh.symm)]
      exact ha sid
  · intro sid rn
    by_cases h : sid0 = sid
    · subst h
      simp only [specStep, if_pos rfl]
      constructor
      · intro hh
        exact absurd hh (by simp)
      · rintro ⟨room, hroom, hmem⟩
        have : f sid0 = (some rn, true) := (hb sid0 rn).2 ⟨room, by simpa [step] using hroom, hmem⟩
        have hc := ha sid0
        rw [this] at hc
        rw [hok] at hc
        simp at hc
    · simp only [specStep]
      rw [if_neg h]
      simpa [step] using hb sid rn
  · intro sid rn
    by_cases h : sid0 = sid
    · subst h
      simp only [specStep, if_pos rfl]
      intro hh
      exact absurd hh (by simp)
    · simp only [specStep]
      rw [if_neg h]
      intro hh
      obtain ⟨sock, hs, hr⟩ := hd sid rn hh
      refine ⟨sock, ?_, hr⟩
      simpa [step, findA_setA_ne _ _ _ _ (fun hh2 => h hh2.symm)] using hs
  · simpa [step] using hnr
  · simp only [step]
    exact nodup_keys_setA _ _ _ hns
  · intro rn room hroom
    exact hnp rn room (by simpa [step] using hroom)
  · simpa [step] using hne0

theorem relayInv_congr (s : ServerState) (f g : String → Option String × Bool)
    (h : ∀ sid, g sid = f sid) (hInv : RelayInv s f) : RelayInv s g := by
  obtain ⟨ha, hb, hd, hnr, hns, hnp, hne0⟩ := hInv
  exact ⟨fun sid => by rw [h sid]; exact ha sid,
         fun sid rn => by rw [h sid]; exact hb sid rn,
         fun sid rn hh => hd sid rn (by rwa [h sid] at hh),
         hnr, hns, hnp, hne0⟩

theorem relayInv_join (s : ServerState) (f : String → Option String × Bool)
    (sid0 rn0 pn0 : String) (now : Nat) (hInv : RelayInv s f)
    (hok : inAnyRoom s sid0 = false) (hne : rn0 ≠ "") :
    RelayInv (step s (.joinRoom sid0 rn0 pn0 now)).1
      (fun sid => specStep sid (f sid) (.joinRoom sid0 rn0 pn0 now)) := by
  obtain ⟨ha, hb, hd, hnr, hns, hnp, hne0⟩ := hInv
  cases hsock : findA s.sockets sid0 with
  | none =>
      have hf0 : (f sid0).2 = false := by
        have hc := ha sid0
        rw [connected, hsock] at hc
        simpa using hc.symm
      have hfeq : ∀ sid, specStep sid (f sid) (.joinRoom sid0 rn0 pn0 now) = f sid := by
        intro sid
        by_cases h : sid0 = sid
        · subst h
          simp [specStep, hf0]
        · simp [specStep, h]
      have hstate : (step s (.joinRoom sid0 rn0 pn0 now)).1 = s := by
        simp [step, hsock]
      rw [hstate]
      exact relayInv_congr s f _ hfeq ⟨ha, hb, hd, hnr, hns, hnp, hne0⟩
  | some sock =>
      have hf0 : (f sid0).2 = true := by
        have hc := ha sid0
        rw [connected, hsock] at hc
        simpa using hc.symm
      have hfself : specStep sid0 (f sid0) (.joinRoom sid0 rn0 pn0 now) = (some rn0, true) := by
        simp [specStep, hf0]
      have hfne : ∀ sid, sid0 ≠ sid →
          specStep sid (f sid) (.joinRoom sid0 rn0 pn0 now) = f sid := by
        intro sid h
        simp [specStep, h]
      cases hroom : findA s.rooms rn0 with
      | none =>
          have hstate : (step s (.joinRoom sid0 rn0 pn0 now)).1 =
              { rooms := setA (setA s.rooms rn0 ⟨rn0, [], now⟩) rn0
                  ⟨rn0, setA [] sid0 ⟨sid0, pn0, now⟩, now⟩,
                sockets := setA s.sockets sid0
                  ⟨sock.id, some rn0, some pn0,
                   if sock.sioRooms.contains rn0 then sock.sioRooms
                   else sock.sioRooms ++ [rn0]⟩ } := by
            simp [step, hsock, getRoomInfo, hroom]
          rw [hstate]
          constructor
          · intro sid
            by_cases h : sid0 = sid
            · subst h
              simp [connected, findA_setA_self, hfself]
            · simp only [connected]
              rw [findA_setA_ne _ _ _ _ (fun hh => h hh.symm), hfne sid h]
              exact ha sid
          · intro sid rn
            by_cases h : sid0 = sid
            · subst h
              rw [hfself]
              by_cases hrn : rn = rn0
              · subst hrn
                constructor
                · intro _
                  exact ⟨_, findA_setA_self _ _ _, by simp [findA_setA_self]⟩
                · intro _
                  rfl
              · constructor
                · intro hh
                  simp only [Prod.mk.injEq, Option.some.injEq, and_true] at hh
                  exact absurd hh.symm hrn
                · rintro ⟨room, hr, hmem⟩
                  rw [findA_setA_ne _ _ _ _ hrn, findA_setA_ne _ _ _ _ hrn] at hr
                  rw [inAnyRoom_false hok hr] at hmem
                  simp at hmem
            · rw [hfne sid h]
              by_cases hrn : rn = rn0
              · subst hrn
                constructor
                · intro hh
                  obtain ⟨room, hr, _⟩ := (hb sid rn).1 hh
                  rw [hroom] at hr
                  cases hr
                · rintro ⟨room, hr, hmem⟩
                  rw [findA_setA_self] at hr
                  cases hr
                  rw [findA_setA_ne _ _ _ _ (fun hh => h hh.symm)] at hmem
                  simp [findA] at hmem
              · constructor
                · intro hh
                  obtain ⟨room, hr, hmem⟩ := (hb sid rn).1 hh
                  refine ⟨room, ?_, hmem⟩
                  rw [findA_setA_ne _ _ _ _ hrn, findA_setA_ne _ _ _ _ hrn]
                  exact hr
                · rintro ⟨room, hr, hmem⟩
                  rw [findA_setA_ne _ _ _ _ hrn, findA_setA_ne _ _ _ _ hrn] at hr
                  exact (hb sid rn).2 ⟨room, hr, hmem⟩
          · intro sid rn
            by_cases h : sid0 = sid
            · subst h
              rw [hfself]
              intro hh
              simp only [Prod.mk.injEq, Option.some.injEq, and_true] at hh
              subst hh
              exact ⟨_, findA_setA_self _ _ _, rfl⟩
            · rw [hfne sid h]
              intro hh
              obtain ⟨sock2, hs2, hr2⟩ := hd sid rn hh
              refine ⟨sock2, ?_, hr2⟩
              rw [findA_setA_ne _ _ _ _ (fun hh2 => h hh2.symm)]
              exact hs2
          · exact nodup_keys_setA _ _ _ (nodup_keys_setA _ _ _ hnr)
          · exact nodup_keys_setA _ _ _ hns
          · intro rn room hr
            by_cases hrn : rn = rn0
            · subst hrn
              rw [findA_setA_self] at hr
              cases hr
              exact nodup_keys_setA _ _ _ (by simp)
            · rw [findA_setA_ne _ _ _ _ hrn, findA_setA_ne _ _ _ _ hrn] at hr
              exact hnp rn room hr
          · rw [findA_setA_ne _ _ _ _ (Ne.symm hne),
                findA_setA_ne _ _ _ _ (Ne.symm hne)]
            exact hne0
      | some oldRoom =>
          have hstate : (step s (.joinRoom sid0 rn0 pn0 now)).1 =
              { rooms := setA s.rooms rn0
                  ⟨oldRoom.name, setA oldRoom.participants sid0 ⟨sid0, pn0, now⟩,
                   oldRoom.createdAt⟩,
                sockets := setA s.sockets sid0
                  ⟨sock.id, some rn0, some pn0,
                   if sock.sioRooms.contains rn0 then sock.sioRooms
                   else sock.sioRooms ++ [rn0]⟩ } := by
            simp [step, hsock, getRoomInfo, hroom]
          rw [hstate]
          constructor
          · intro sid
            by_cases h : sid0 = sid
            · subst h
              simp [connected, findA_setA_self, hfself]
            · simp only [connected]
              rw [findA_setA_ne _ _ _ _ (fun hh => h hh.symm), hfne sid h]
              exact ha sid
          · intro sid rn
            by_cases h : sid0 = sid
            · subst h
              rw [hfself]
              by_cases hrn : rn = rn0
              · subst hrn
                constructor
                · intro _
                  exact ⟨_, findA_setA_self _ _ _, by simp [findA_setA_self]⟩
                · intro _
                  rfl
              · constructor
                · intro hh
                  simp only [Prod.mk.injEq, Option.some.injEq, and_true] at hh
                  exact absurd hh.symm hrn
                · rintro ⟨room, hr, hmem⟩
                  rw [findA_setA_ne _ _ _ _ hrn] at hr
                  rw [inAnyRoom_false hok hr] at hmem
                  simp at hmem
            · rw [hfne sid h]
              by_cases hrn : rn = rn0
              · subst hrn
                constructor
                · intro hh
                  obtain ⟨room, hr, hmem⟩ := (hb sid rn).1 hh
                  rw [hroom] at hr
                  cases hr
                  refine ⟨_, findA_setA_self _ _ _, ?_⟩
                  rwa [findA_setA_ne _ _ _ _ (fun hh2 => h hh2.symm)]
                · rintro ⟨room, hr, hmem⟩
                  rw [findA_setA_self] at hr
                  cases hr
                  rw [findA_setA_ne _ _ _ _ (fun hh2 => h hh2.symm)] at hmem
                  exact (hb sid rn).2 ⟨oldRoom, hroom, hmem⟩
              · constructor
                · intro hh
                  obtain ⟨room, hr, hmem⟩ := (hb sid rn).1 hh
                  refine ⟨room, ?_, hmem⟩
                  rw [findA_setA_ne _ _ _ _ hrn]
                  exact hr
                · rintro ⟨room, hr, hmem⟩
                  rw [findA_setA_ne _ _ _ _ hrn] at hr
                  exact (hb sid rn).2 ⟨room, hr, hmem⟩
          · intro sid rn
            by_cases h : sid0 = sid
            · subst h
              rw [hfself]
              intro hh
              simp only [Prod.mk.injEq, Option.some.injEq, and_true] at hh
              subst hh
              exact ⟨_, findA_setA_self _ _ _, rfl⟩
            · rw [hfne sid h]
              intro hh
              obtain ⟨sock2, hs2, hr2⟩ := hd sid rn hh
              refine ⟨sock2, ?_, hr2⟩
              rw [findA_setA_ne _ _ _ _ (fun hh2 => h hh2.symm)]
              exact hs2
          · exact nodup_keys_setA _ _ _ hnr
          · exact nodup_keys_setA _ _ _ hns
          · intro rn room hr
            by_cases hrn : rn = rn0
            · subst hrn
              rw [findA_setA_self] at hr
              cases hr
              exact nodup_keys_setA _ _ _ (hnp rn oldRoom hroom)
            · rw [findA_setA_ne _ _ _ _ hrn] at hr
              exact hnp rn room hr
          · rw [findA_setA_ne _ _ _ _ (Ne.symm hne)]
            exact hne0

theorem step_offer_state (s : ServerState) (sid target offer : String) :
    (step s (.webrtcOffer sid target offer)).1 = s := by
  cases h : findA s.sockets sid <;> simp [step, h]

theorem step_answer_state (s : ServerState) (sid target answer : String) :
    (step s (.webrtcAnswer sid target answer)).1 = s := by
  cases h : findA s.sockets sid <;> simp [step, h]

theorem step_ice_state (s : ServerState) (sid target candidate : String) :
    (step s (.webrtcIceCandidate sid target candidate)).1 = s := by
  cases h : findA s.sockets sid <;> simp [step, h]

theorem relayInv_disconnect (s : ServerState) (f : String → Option String × Bool)
    (sid0 : String) (hInv : RelayInv s f) :
    RelayInv (step s (.disconnect sid0)).1
      (fun sid => specStep sid (f sid) (.disconnect sid0)) := by
  obtain ⟨ha, hb, hd, hnr, hns, hnp, hne0⟩ := hInv
  have hfne : ∀ sid, sid0 ≠ sid →
      specStep sid (f sid) (.disconnect sid0) = f sid := by
    intro sid h
    simp [specStep, h]
  have hfself : specStep sid0 (f sid0) (.disconnect sid0) = (none, false) := by
    simp [specStep]
  -- whenever the socket table still holds `sid0`, membership of `sid0`
  -- in a room forces the recorded room of `sid0`
  cases hsock : findA s.sockets sid0 with
  | none =>
      have hstate : (step s (.disconnect sid0)).1 = s := by
        simp [step, hsock]
      rw [hstate]
      constructor
      · intro sid
        by_cases h : sid0 = sid
        · subst h
          rw [hfself, connected, hsock]
          rfl
        · rw [hfne sid h]
          exact ha sid
      · intro sid rn
        by_cases h : sid0 = sid
        · subst h
          rw [hfself]
          constructor
          · intro hh
            cases hh
          · rintro ⟨room, hr, hmem⟩
            have hf := (hb sid0 rn).2 ⟨room, hr, hmem⟩
            have hc := ha sid0
            rw [connected, hsock, hf] at hc
            cases hc
        · rw [hfne sid h]
          exact hb sid rn
      · intro sid rn
        by_cases h : sid0 = sid
        · subst h
          rw [hfself]
          intro hh
          cases hh
        · rw [hfne sid h]
          exact hd sid rn
      · exact hnr
      · exact hns
      · exact hnp
      · exact hne0
  | some sock =>
      have hmem_room : ∀ rn, (∃ room, findA s.rooms rn = some room ∧
          (findA room.participants sid0).isSome = true) → sock.roomName = some rn := by
        intro rn hh
        have hf := (hb sid0 rn).2 hh
        obtain ⟨sock2, hs2, hr2⟩ := hd sid0 rn hf
        rw [hsock] at hs2
        cases hs2
        exact hr2
      cases hrn0 : sock.roomName with
      | none =>
          have hstate : (step s (.disconnect sid0)).1 =
              { s with sockets := eraseA s.sockets sid0 } := by
            simp [step, hsock, hrn0]
          rw [hstate]
          constructor
          · intro sid
            by_cases h : sid0 = sid
            · subst h
              rw [hfself, connected]
              rw [findA_eraseA_self _ _ hns]
              rfl
            · rw [hfne sid h]
              simp only [connected]
              rw [findA_eraseA_ne _ _ _ (fun hh => h hh.symm)]
              exact ha sid
          · intro sid rn
            by_cases h : sid0 = sid
            · subst h
              rw [hfself]
              constructor
              · intro hh
                cases hh
              · intro hh
                have := hmem_room rn hh
                rw [hrn0] at this
                cases this
            · rw [hfne sid h]
              exact hb sid rn
          · intro sid rn
            by_cases h : sid0 = sid
            · subst h
              rw [hfself]
              intro hh
              cases hh
            · rw [hfne sid h]
              intro hh
              obtain ⟨sock2, hs2, hr2⟩ := hd sid rn hh
              refine ⟨sock2, ?_, hr2⟩
              rw [findA_eraseA_ne _ _ _ (fun hh2 => h hh2.symm)]
              exact hs2
          · exact hnr
          · exact nodup_keys_eraseA _ _ hns
          · exact hnp
          · exact hne0
      | some rn0 =>
          cases hroom : findA s.rooms rn0 with
          | none =>
              have hstate : (step s (.disconnect sid0)).1 =
                  { s with sockets := eraseA s.sockets sid0 } := by
                by_cases hrne : rn0 = ""
                · simp [step, hsock, hrn0, hrne]
                · simp [step, hsock, hrn0, hrne, hroom]
              rw [hstate]
              constructor
              · intro sid
                by_cases h : sid0 = sid
                · subst h
                  rw [hfself, connected]
                  rw [findA_eraseA_self _ _ hns]
                  rfl
                · rw [hfne sid h]
                  simp only [connected]
                  rw [findA_eraseA_ne _ _ _ (fun hh => h hh.symm)]
                  exact ha sid
              · intro sid rn
                by_cases h : sid0 = sid
                · subst h
                  rw [hfself]
                  constructor
                  · intro hh
                    cases hh
                  · intro hh
                    have h2 := hmem_room rn hh
                    rw [hrn0] at h2
                    cases h2
                    obtain ⟨room, hr, _⟩ := hh
                    rw [hroom] at hr
                    cases hr
                · rw [hfne sid h]
                  exact hb sid rn
              · intro sid rn
                by_cases h : sid0 = sid
                · subst h
                  rw [hfself]
                  intro hh
                  cases hh
                · rw [hfne sid h]
                  intro hh
                  obtain ⟨sock2, hs2, hr2⟩ := hd sid rn hh
                  refine ⟨sock2, ?_, hr2⟩
                  rw [findA_eraseA_ne _ _ _ (fun hh2 => h hh2.symm)]
                  exact hs2
              · exact hnr
              · exact nodup_keys_eraseA _ _ hns
              · exact hnp
              · exact hne0
          | some room =>
              have hpn : (room.participants.map Prod.fst).Nodup := hnp rn0 room hroom
              have hrne : rn0 ≠ "" := by
                intro hh
                rw [hh, hne0] at hroom
                cases hroom
              by_cases hemp : (eraseA room.participants sid0).isEmpty = true
              · have he : eraseA room.participants sid0 = [] :=
                  List.isEmpty_iff.mp hemp
                have hstate : (step s (.disconnect sid0)).1 =
                    { rooms := eraseA s.rooms rn0,
                      sockets := eraseA s.sockets sid0 } := by
                  simp [step, hsock, hrn0, hrne, hroom, hemp]
                rw [hstate]
                constructor
                · intro sid
                  by_cases h : sid0 = sid
                  · subst h
                    rw [hfself, connected]
                    rw [findA_eraseA_self _ _ hns]
                    rfl
                  · rw [hfne sid h]
                    simp only [connected]
                    rw [findA_eraseA_ne _ _ _ (fun hh => h hh.symm)]
                    exact ha sid
                · intro sid rn
                  by_cases h : sid0 = sid
                  · subst h
                    rw [hfself]
                    constructor
                    · intro hh
                      cases hh
                    · rintro ⟨room2, hr2, hmem2⟩
                      by_cases hrn : rn = rn0
                      · subst hrn
                        rw [findA_eraseA_self _ _ hnr] at hr2
                        cases hr2
                      · rw [findA_eraseA_ne _ _ _ hrn] at hr2
                        have h2 := hmem_room rn ⟨room2, hr2, hmem2⟩
                        rw [hrn0] at h2
                        cases h2
                        exact absurd rfl hrn
                  · rw [hfne sid h]
                    by_cases hrn : rn = rn0
                    · subst hrn
                      constructor
                      · intro hh
                        obtain ⟨room2, hr2, hmem2⟩ := (hb sid rn).1 hh
                        rw [hroom] at hr2
                        cases hr2
                        have hne := findA_eraseA_ne room.participants sid0 sid
                          (fun hh2 => h hh2.symm)
                        rw [he] at hne
                        rw [← hne] at hmem2
                        simp [findA] at hmem2
                      · rintro ⟨room2, hr2, _⟩
                        rw [findA_eraseA_self _ _ hnr] at hr2
                        cases hr2
                    · constructor
                      · intro hh
                        obtain ⟨room2, hr2, hmem2⟩ := (hb sid rn).1 hh
                        refine ⟨room2, ?_, hmem2⟩
                        rw [findA_eraseA_ne _ _ _ hrn]
                        exact hr2
                      · rintro ⟨room2, hr2, hmem2⟩
                        rw [findA_eraseA_ne _ _ _ hrn] at hr2
                        exact (hb sid rn).2 ⟨room2, hr2, hmem2⟩
                · intro sid rn
                  by_cases h : sid0 = sid
                  · subst h
                    rw [hfself]
                    intro hh
                    cases hh
                  · rw [hfne sid h]
                    intro hh
                    obtain ⟨sock2, hs2, hr2⟩ := hd sid rn hh
                    refine ⟨sock2, ?_, hr2⟩
                    rw [findA_eraseA_ne _ _ _ (fun hh2 => h hh2.symm)]
                    exact hs2
                · exact nodup_keys_eraseA _ _ hnr
                · exact nodup_keys_eraseA _ _ hns
                · intro rn room2 hr2
                  by_cases hrn : rn = rn0
                  · subst hrn
                    rw [findA_eraseA_self _ _ hnr] at hr2
                    cases hr2
                  · rw [findA_eraseA_ne _ _ _ hrn] at hr2
                    exact hnp rn room2 hr2
                · rw [findA_eraseA_ne _ _ _ (fun hh => hrne hh.symm)]
                  exact hne0
              · have hstate : (step s (.disconnect sid0)).1 =
                    { rooms := setA s.rooms rn0
                        ⟨room.name, eraseA room.participants sid0, room.createdAt⟩,
                      sockets := eraseA s.sockets sid0 } := by
                  simp [step, hsock, hrn0, hrne, hroom, hemp]
                rw [hstate]
                constructor
                · intro sid
                  by_cases h : sid0 = sid
                  · subst h
                    rw [hfself, connected]
                    rw [findA_eraseA_self _ _ hns]
                    rfl
                  · rw [hfne sid h]
                    simp only [connected]
                    rw [findA_eraseA_ne _ _ _ (fun hh => h hh.symm)]
                    exact ha sid
                · intro sid rn
                  by_cases h : sid0 = sid
                  · subst h
                    rw [hfself]
                    constructor
                    · intro hh
                      cases hh
                    · rintro ⟨room2, hr2, hmem2⟩
                      by_cases hrn : rn = rn0
                      · subst hrn
                        rw [findA_setA_self] at hr2
                        cases hr2
                        rw [findA_eraseA_self _ _ hpn] at hmem2
                        cases hmem2
                      · rw [findA_setA_ne _ _ _ _ hrn] at hr2
                        have h2 := hmem_room rn ⟨room2, hr2, hmem2⟩
                        rw [hrn0] at h2
                        cases h2
                        exact absurd rfl hrn
                  · rw [hfne sid h]
                    by_cases hrn : rn = rn0
                    · subst hrn
                      constructor
                      · intro hh
                        obtain ⟨room2, hr2, hmem2⟩ := (hb sid rn).1 hh
                        rw [hroom] at hr2
                        cases hr2
                        refine ⟨_, findA_setA_self _ _ _, ?_⟩
                        rwa [findA_eraseA_ne _ _ _ (fun hh2 => h hh2.symm)]
                      · rintro ⟨room2, hr2, hmem2⟩
                        rw [findA_setA_self] at hr2
                        cases hr2
                        rw [findA_eraseA_ne _ _ _ (fun hh2 => h hh2.symm)] at hmem2
                        exact (hb sid rn).2 ⟨room, hroom, hmem2⟩
                    · constructor
                      · intro hh
                        obtain ⟨room2, hr2, hmem2⟩ := (hb sid rn).1 hh
                        refine ⟨room2, ?_, hmem2⟩
                        rw [findA_setA_ne _ _ _ _ hrn]
                        exact hr2
                      · rintro ⟨room2, hr2, hmem2⟩
                        rw [findA_setA_ne _ _ _ _ hrn] at hr2
                        exact (hb sid rn).2 ⟨room2, hr2, hmem2⟩
                · intro sid rn
                  by_cases h : sid0 = sid
                  · subst h
                    rw [hfself]
                    intro hh
                    cases hh
                  · rw [hfne sid h]
                    intro hh
                    obtain ⟨sock2, hs2, hr2⟩ := hd sid rn hh
                    refine ⟨sock2, ?_, hr2⟩
                    rw [findA_eraseA_ne _ _ _ (fun hh2 => h hh2.symm)]
                    exact hs2
                · exact nodup_keys_setA _ _ _ hnr
                · exact nodup_keys_eraseA _ _ hns
                · intro rn room2 hr2
                  by_cases hrn : rn = rn0
                  · subst hrn
                    rw [findA_setA_self] at hr2
                    cases hr2
                    exact nodup_keys_eraseA _ _ hpn
                  · rw [findA_setA_ne _ _ _ _ hrn] at hr2
                    exact hnp rn room2 hr2
                · rw [findA_setA_ne _ _ _ _ (fun hh => hrne hh.symm)]
                  exact hne0

theorem relayInv_leave (s : ServerState) (f : String → Option String × Bool)
    (sid0 : String) (hInv : RelayInv s f) :
    RelayInv (step s (.leaveRoom sid0)).1
      (fun sid => specStep sid (f sid) (.leaveRoom sid0)) := by
  obtain ⟨ha, hb, hd, hnr, hns, hnp, hne0⟩ := hInv
  cases hsock : findA s.sockets sid0 with
  | none =>
      have hf0 : (f sid0).2 = false := by
        have hc := ha sid0
        rw [connected, hsock] at hc
        simpa using hc.symm
      have hfeq : ∀ sid, specStep sid (f sid) (.leaveRoom sid0) = f sid := by
        intro sid
        by_cases h : sid0 = sid
        · subst h
          simp [specStep, hf0]
        · simp [specStep, h]
      have hstate : (step s (.leaveRoom sid0)).1 = s := by
        simp [step, hsock]
      rw [hstate]
      exact relayInv_congr s f _ hfeq ⟨ha, hb, hd, hnr, hns, hnp, hne0⟩
  | some sock =>
      have hf0 : (f sid0).2 = true := by
        have hc := ha sid0
        rw [connected, hsock] at hc
        simpa using hc.symm
      have hfself : specStep sid0 (f sid0) (.leaveRoom sid0) = (none, true) := by
        simp [specStep, hf0]
      have hfne : ∀ sid, sid0 ≠ sid →
          specStep sid (f sid) (.leaveRoom sid0) = f sid := by
        intro sid h
        simp [specStep, h]
      have hmem_room : ∀ rn, (∃ room, findA s.rooms rn = some room ∧
          (findA room.participants sid0).isSome = true) → sock.roomName = some rn := by
        intro rn hh
        have hf := (hb sid0 rn).2 hh
        obtain ⟨sock2, hs2, hr2⟩ := hd sid0 rn hf
        rw [hsock] at hs2
        cases hs2
        exact hr2
      cases hrn0 : sock.roomName with
      | none =>
          have hstate : (step s (.leaveRoom sid0)).1 = s := by
            simp [step, hsock, hrn0]
          rw [hstate]
          constructor
          · intro sid
            by_cases h : sid0 = sid
            · subst h
              rw [hfself, connected, hsock]
              rfl
            · rw [hfne sid h]
              exact ha sid
          · intro sid rn
            by_cases h : sid0 = sid
            · subst h
              rw [hfself]
              constructor
              · intro hh
                cases hh
              · intro hh
                have h2 := hmem_room rn hh
                rw [hrn0] at h2
                cases h2
            · rw [hfne sid h]
              exact hb sid rn
          · intro sid rn
            by_cases h : sid0 = sid
            · subst h
              rw [hfself]
              intro hh
              cases hh
            · rw [hfne sid h]
              exact hd sid rn
          · exact hnr
          · exact hns
          · exact hnp
          · exact hne0
      | some rn0 =>
          cases hroom : findA s.rooms rn0 with
          | none =>
              have hstate : (step s (.leaveRoom sid0)).1 = s := by
                by_cases hrne : rn0 = ""
                · simp [step, hsock, hrn0, hrne]
                · simp [step, hsock, hrn0, hrne, hroom]
              rw [hstate]
              constructor
              · intro sid
                by_cases h : sid0 = sid
                · subst h
                  rw [hfself, connected, hsock]
                  rfl
                · rw [hfne sid h]
                  exact ha sid
              · intro sid rn
                by_cases h : sid0 = sid
                · subst h
                  rw [hfself]
                  constructor
                  · intro hh
                    cases hh
                  · intro hh
                    have h2 := hmem_room rn hh
                    rw [hrn0] at h2
                    cases h2
                    obtain ⟨room, hr, _⟩ := hh
                    rw [hroom] at hr
                    cases hr
                · rw [hfne sid h]
                  exact hb sid rn
              · intro sid rn
                by_cases h : sid0 = sid
                · subst h
                  rw [hfself]
                  intro hh
                  cases hh
                · rw [hfne sid h]
                  exact hd sid rn
              · exact hnr
              · exact hns
              · exact hnp
              · exact hne0
          | some room =>
              have hpn : (room.participants.map Prod.fst).Nodup := hnp rn0 room hroom
              have hrne : rn0 ≠ "" := by
                intro hh
                rw [hh, hne0] at hroom
                cases hroom
              have hstate : (step s (.leaveRoom sid0)).1 =
                  { rooms := setA s.rooms rn0
                      ⟨room.name, eraseA room.participants sid0, room.createdAt⟩,
                    sockets := setA s.sockets sid0
                      ⟨sock.id, sock.roomName, sock.participantName,
                       sock.sioRooms.erase rn0⟩ } := by
                simp [step, hsock, hrn0, hrne, hroom]
              rw [hstate]
              constructor
              · intro sid
                by_cases h : sid0 = sid
                · subst h
                  rw [hfself, connected]
                  rw [findA_setA_self]
                  rfl
                · rw [hfne sid h]
                  simp only [connected]
                  rw [findA_setA_ne _ _ _ _ (fun hh => h hh.symm)]
                  exact ha sid
              · intro sid rn
                by_cases h : sid0 = sid
                · subst h
                  rw [hfself]
                  constructor
                  · intro hh
                    cases hh
                  · rintro ⟨room2, hr2, hmem2⟩
                    by_cases hrn : rn = rn0
                    · subst hrn
                      rw [findA_setA_self] at hr2
                      cases hr2
                      rw [findA_eraseA_self _ _ hpn] at hmem2
                      cases hmem2
                    · rw [findA_setA_ne _ _ _ _ hrn] at hr2
                      have h2 := hmem_room rn ⟨room2, hr2, hmem2⟩
                      rw [hrn0] at h2
                      cases h2
                      exact absurd rfl hrn
                · rw [hfne sid h]
                  by_cases hrn : rn = rn0
                  · subst hrn
                    constructor
                    · intro hh
                      obtain ⟨room2, hr2, hmem2⟩ := (hb sid rn).1 hh
                      rw [hroom] at hr2
                      cases hr2
                      refine ⟨_, findA_setA_self _ _ _, ?_⟩
                      rwa [findA_eraseA_ne _ _ _ (fun hh2 => h hh2.symm)]
                    · rintro ⟨room2, hr2, hmem2⟩
                      rw [findA_setA_self] at hr2
                      cases hr2
                      rw [findA_eraseA_ne _ _ _ (fun hh2 => h hh2.symm)] at hmem2
                      exact (hb sid rn).2 ⟨room, hroom, hmem2⟩
                  · constructor
                    · intro hh
                      obtain ⟨room2, hr2, hmem2⟩ := (hb sid rn).1 hh
                      refine ⟨room2, ?_, hmem2⟩
                      rw [findA_setA_ne _ _ _ _ hrn]
                      exact hr2
                    · rintro ⟨room2, hr2, hmem2⟩
                      rw [findA_setA_ne _ _ _ _ hrn] at hr2
                      exact (hb sid rn).2 ⟨room2, hr2, hmem2⟩
              · intro sid rn
                by_cases h : sid0 = sid
                · subst h
                  rw [hfself]
                  intro hh
                  cases hh
                · rw [hfne sid h]
                  intro hh
                  obtain ⟨sock2, hs2, hr2⟩ := hd sid rn hh
                  refine ⟨sock2, ?_, hr2⟩
                  rw [findA_setA_ne _ _ _ _ (fun hh2 => h hh2.symm)]
                  exact hs2
              · exact nodup_keys_setA _ _ _ hnr
              · exact nodup_keys_setA _ _ _ hns
              · intro rn room2 hr2
                by_cases hrn : rn = rn0
                · subst hrn
                  rw [findA_setA_self] at hr2
                  cases hr2
                  exact nodup_keys_eraseA _ _ hpn
                · rw [findA_setA_ne _ _ _ _ hrn] at hr2
                  exact hnp rn room2 hr2
              · rw [findA_setA_ne _ _ _ _ (fun hh => hrne hh.symm)]
                exact hne0

theorem relayInv_step (s : ServerState) (f : String → Option String × Bool)
    (e : Event) (hInv : RelayInv s f) (hok : okGuard s e = true) :
    RelayInv (step s e).1 (fun sid => specStep sid (f sid) e) := by
  cases e with
  | connect sid0 =>
      have h : connected s sid0 = false := by
        simpa [okGuard] using hok
      exact relayInv_connect s f sid0 hInv h
  | joinRoom sid0 rn0 pn0 now =>
      have h : inAnyRoom s sid0 = false ∧ ¬rn0 = "" := by
        simpa [okGuard, Bool.and_eq_true] using hok
      exact relayInv_join s f sid0 rn0 pn0 now hInv h.1 h.2
  | webrtcOffer sid0 target offer =>
      rw [step_offer_state]
      exact hInv
  | webrtcAnswer sid0 target answer =>
      rw [step_answer_state]
      exact hInv
  | webrtcIceCandidate sid0 target candidate =>
      rw [step_ice_state]
      exact hInv
  | disconnect sid0 =>
      exact relayInv_disconnect s f sid0 hInv
  | leaveRoom sid0 =>
      exact relayInv_leave s f sid0 hInv

theorem relayInv_run (tr : List Event) :
    ∀ (s : ServerState) (f : String → Option String × Bool),
      RelayInv s f → okFrom s tr = true →
      RelayInv (run s tr) (fun sid => tr.foldl (specStep sid) (f sid)) := by
  induction tr with
  | nil =>
      intro s f h _
      exact h
  | cons e rest ih =>
      intro s f h hok
      simp only [okFrom, Bool.and_eq_true] at hok
      exact ih (step s e).1 _ (relayInv_step s f e h hok.1) hok.2

theorem relayInv_init : RelayInv initState (fun _ => (none, false)) := by
  constructor
  · intro sid
    rfl
  · intro sid rn
    constructor
    · intro hh
      cases hh
    · rintro ⟨room, hr, _⟩
      cases hr
  · intro sid rn hh
    cases hh
  · exact List.nodup_nil
  · exact List.nodup_nil
  · intro rn room hr
    cases hr
  · rfl

/-- The double-join trace: one socket joins room "A", then room "B",
without leaving or disconnecting in between. -/
def doubleJoinTrace : List Event :=
  [.connect "a", .joinRoom "a" "A" "n" 0, .joinRoom "a" "B" "n" 0]

/-- C2 (counterexample): the claim as stated is false.  After a socket
joins room "A" and then room "B" without leaving, its entry is still in
room "A"'s participants map although its most recent `join-room` named
"B": the key set of room "A" is not the set demanded by the spec. -/
theorem C2_participants_counterexample :
    ∃ room, findA (run initState doubleJoinTrace).rooms "A" = some room ∧
      (findA room.participants "a").isSome = true ∧
      specStatus doubleJoinTrace "a" ≠ (some "A", true) := by
  refine ⟨⟨"A", [("a", ⟨"a", "n", 0⟩)], 0⟩, ?_, ?_, ?_⟩ <;> decide

/-- C2 (amended): over traces in which every `connect` is fresh and a
socket only sends `join-room` with a non-empty room name and while it
has no participant entry in any room (`okFrom`), the invariant holds as
stated: a room's participants map holds exactly the currently connected
sockets whose most recent `join-room` named that room with no
`leave-room` or disconnect since (`specStatus`), and every socket the
spec places in a room is indeed in that room of the directory.  Both
restrictions are forced: double joins leave a stale entry in the old
room, and joins to the room named `""` leave entries the falsy
`if (socket.roomName)` cleanup never removes. -/
theorem C2_participants_reflect_connections (tr : List Event)
    (hok : okFrom initState tr = true) :
    (∀ rn room, findA (run initState tr).rooms rn = some room →
      ∀ sid, ((findA room.participants sid).isSome = true ↔
        specStatus tr sid = (some rn, true))) ∧
    (∀ sid rn, specStatus tr sid = (some rn, true) →
      ∃ room, findA (run initState tr).rooms rn = some room ∧
        (findA room.participants sid).isSome = true) := by
  have hInv := relayInv_run tr initState (fun _ => (none, false)) relayInv_init hok
  obtain ⟨ha, hb, hd, hnr, hns, hnp, hne0⟩ := hInv
  constructor
  · intro rn room hr sid
    constructor
    · intro hmem
      exact (hb sid rn).2 ⟨room, hr, hmem⟩
    · intro hspec
      obtain ⟨room2, hr2, hmem2⟩ := (hb sid rn).1 hspec
      rw [hr] at hr2
      cases hr2
      exact hmem2
  · intro sid rn hspec
    exact (hb sid rn).1 hspec

/-- A well-formed demonstration trace: two sockets join room "R", then
the first one leaves. -/
def c2WitnessTrace : List Event :=
  [.connect "a", .joinRoom "a" "R" "Alice" 0,
   .connect "b", .joinRoom "b" "R" "Bob" 1, .leaveRoom "a"]

/-- Witness for `C2_participants_reflect_connections` at a concrete
trace: after the trace, "b" is in room "R" and the spec agrees, while
"a" (which left) is absent. -/
theorem C2_participants_reflect_connections_witness :
    okFrom initState c2WitnessTrace = true ∧
    ((findA (Room.mk "R" [("b", ⟨"b", "Bob", 1⟩)] 0).participants "b").isSome = true ↔
      specStatus c2WitnessTrace "b" = (some "R", true)) ∧
    ((findA (Room.mk "R" [("b", ⟨"b", "Bob", 1⟩)] 0).participants "a").isSome = true ↔
      specStatus c2WitnessTrace "a" = (some "R", true)) :=
  ⟨by decide,
   (C2_participants_reflect_connections c2WitnessTrace (by decide)).1 "R"
     (Room.mk "R" [("b", ⟨"b", "Bob", 1⟩)] 0) (by decide) "b",
   (C2_participants_reflect_connections c2WitnessTrace (by decide)).1 "R"
     (Room.mk "R" [("b", ⟨"b", "Bob", 1⟩)] 0) (by decide) "a"⟩

/-- C1: a `webrtc-offer` / `webrtc-answer` / `webrtc-ice-candidate`
event from a connected socket whose target names a Socket.IO room whose
sole member is the target connection (the normal case: targets are
socket ids, and every socket is alone in the room named by its own id)
is forwarded as exactly one event of the same kind to exactly that
target, carrying the received payload and a `sender` field equal to the
originating socket's id; and no signaling event is ever delivered back
to its sender. -/
theorem C1_signaling_forward (s : ServerState) (sid target offer answer candidate : String)
    (hconn : connected s sid = true)
    (hne : target ≠ sid)
    (hmem : roomMembers s target = [target]) :
    (step s (.webrtcOffer sid target offer)).2 =
      [⟨"webrtc-offer", [target], .webrtcOffer offer sid⟩] ∧
    (step s (.webrtcAnswer sid target answer)).2 =
      [⟨"webrtc-answer", [target], .webrtcAnswer answer sid⟩] ∧
    (step s (.webrtcIceCandidate sid target candidate)).2 =
      [⟨"webrtc-ice-candidate", [target], .webrtcIceCandidate candidate sid⟩] ∧
    (∀ t o e, e ∈ (step s (.webrtcOffer sid t o)).2 → sid ∉ e.recipients) ∧
    (∀ t o e, e ∈ (step s (.webrtcAnswer sid t o)).2 → sid ∉ e.recipients) ∧
    (∀ t o e, e ∈ (step s (.webrtcIceCandidate sid t o)).2 → sid ∉ e.recipients) := by
  rw [connected] at hconn
  cases hs : findA s.sockets sid with
  | none =>
      rw [hs] at hconn
      cases hconn
  | some sock =>
      have hb : broadcastTo s sid target = [target] := by
        simp [broadcastTo, hmem, hne]
      refine ⟨?_, ?_, ?_, ?_, ?_, ?_⟩
      · simp [step, hs, hb]
      · simp [step, hs, hb]
      · simp [step, hs, hb]
      · intro t o e he
        simp only [step, hs, List.mem_singleton] at he
        subst he
        simp [broadcastTo, List.mem_filter]
      · intro t o e he
        simp only [step, hs, List.mem_singleton] at he
        subst he
        simp [broadcastTo, List.mem_filter]
      · intro t o e he
        simp only [step, hs, List.mem_singleton] at he
        subst he
        simp [broadcastTo, List.mem_filter]

/-- Witness for `C1_signaling_forward`: two freshly connected sockets
"a" and "b"; an offer from "a" targeting "b" is delivered exactly to
"b" with sender "a". -/
theorem C1_signaling_forward_witness :
    connected (run initState [.connect "a", .connect "b"]) "a" = true ∧
    (step (run initState [.connect "a", .connect "b"]) (.webrtcOffer "a" "b" "sdp")).2 =
      [⟨"webrtc-offer", ["b"], .webrtcOffer "sdp" "a"⟩] :=
  ⟨by decide,
   (C1_signaling_forward (run initState [.connect "a", .connect "b"])
     "a" "b" "sdp" "x" "y" (by decide) (by decide) (by decide)).1⟩

/-- C6: processing a `webrtc-offer`, `webrtc-answer` or
`webrtc-ice-candidate` event leaves the room→participant directory
completely unchanged, regardless of sender, target or payload. -/
theorem C6_signaling_frame (s : ServerState) (sid target payload : String) :
    (step s (.webrtcOffer sid target payload)).1.rooms = s.rooms ∧
    (step s (.webrtcAnswer sid target payload)).1.rooms = s.rooms ∧
    (step s (.webrtcIceCandidate sid target payload)).1.rooms = s.rooms := by
  rw [step_offer_state, step_answer_state, step_ice_state]
  exact ⟨rfl, rfl, rfl⟩

/-- C3: a `join-room` event from a connected socket inserts the sender
(keyed by its socket id, with the given name) into the named room's
participant map, creating the room (with the event's timestamp) if it
does not exist; it emits `user-joined` with the joiner's id and name to
the room's other members (never to the joiner), and sends the joiner —
and only the joiner — a `room-joined` event with the room name, the
joiner's own id, and the room's participants excluding the joiner. -/
theorem C3_join_room (s : ServerState) (sid rn pn : String) (now : Nat)
    (sock : SocketState) (hsock : findA s.sockets sid = some sock) :
    ∃ room',
      findA (step s (.joinRoom sid rn pn now)).1.rooms rn = some room' ∧
      findA room'.participants sid = some ⟨sid, pn, now⟩ ∧
      (findA s.rooms rn = none → room' = ⟨rn, [(sid, ⟨sid, pn, now⟩)], now⟩) ∧
      (∀ oldRoom, findA s.rooms rn = some oldRoom →
        room' = ⟨oldRoom.name, setA oldRoom.participants sid ⟨sid, pn, now⟩,
                 oldRoom.createdAt⟩) ∧
      (step s (.joinRoom sid rn pn now)).2 =
        [⟨"user-joined",
          broadcastTo (step s (.joinRoom sid rn pn now)).1 sid rn,
          .userJoined sid pn⟩,
         ⟨"room-joined", [sid],
          .roomJoined rn
            ((room'.participants.map Prod.snd).filter (fun p => p.id ≠ sid))
            sid⟩] ∧
      sid ∉ broadcastTo (step s (.joinRoom sid rn pn now)).1 sid rn ∧
      (∀ p, p ∈ (room'.participants.map Prod.snd).filter (fun p => p.id ≠ sid) →
        p.id ≠ sid) := by
  cases hroom : findA s.rooms rn with
  | none =>
      refine ⟨⟨rn, [(sid, ⟨sid, pn, now⟩)], now⟩, ?_, ?_, ?_, ?_, ?_, ?_, ?_⟩
      · simp [step, hsock, getRoomInfo, hroom]
        exact findA_setA_self _ _ _
      · simp [findA]
      · intro _
        rfl
      · intro oldRoom h
        cases h
      · simp [step, hsock, getRoomInfo, hroom, setA]
      · simp [broadcastTo, List.mem_filter]
      · intro p hp
        simp only [List.mem_filter, decide_eq_true_eq] at hp
        exact hp.2
  | some oldRoom =>
      refine ⟨⟨oldRoom.name, setA oldRoom.participants sid ⟨sid, pn, now⟩,
               oldRoom.createdAt⟩, ?_, ?_, ?_, ?_, ?_, ?_, ?_⟩
      · simp [step, hsock, getRoomInfo, hroom]
        exact findA_setA_self _ _ _
      · exact findA_setA_self _ _ _
      · intro h
        cases h
      · intro oldRoom2 h
        cases h
        rfl
      · simp [step, hsock, getRoomInfo, hroom]
      · simp [broadcastTo, List.mem_filter]
      · intro p hp
        simp only [List.mem_filter, decide_eq_true_eq] at hp
        exact hp.2

/-- Witness for `C3_join_room`: "b" joins room "R" already containing
"a"; the emitted events and the updated map are as stated. -/
theorem C3_join_room_witness :
    findA (run initState [.connect "a", .joinRoom "a" "R" "Alice" 0,
      .connect "b"]).sockets "b" =
      some ⟨"b", none, none, ["b"]⟩ ∧
    ∃ room',
      findA (step (run initState [.connect "a", .joinRoom "a" "R" "Alice" 0,
        .connect "b"]) (.joinRoom "b" "R" "Bob" 1)).1.rooms "R" = some room' ∧
      findA room'.participants "b" = some ⟨"b", "Bob", 1⟩ := by
  refine ⟨by decide, ?_⟩
  obtain ⟨room', h1, h2, -, -, -, -, -⟩ :=
    C3_join_room (run initState [.connect "a", .joinRoom "a" "R" "Alice" 0,
      .connect "b"]) "b" "R" "Bob" 1 ⟨"b", none, none, ["b"]⟩ (by decide)
  exact ⟨room', h1, h2⟩

/-- C4: when a socket that has joined a room disconnects, the relay
removes its entry from that room's participant map, emits `user-left`
with the socket's id and recorded name to the remaining members of that
room (never to the leaver), and leaves every other room and every other
participant entry unchanged (the room itself being deleted exactly when
it becomes empty) — provided the recorded room name is non-empty.  A
disconnect of a socket that never joined a room, or whose recorded room
is gone, changes no room state and emits nothing; and a socket whose
recorded room is the empty string is skipped entirely, because
`if (socket.roomName)` is falsy for `""`: its entry is not removed and
no `user-left` is emitted. -/
theorem C4_disconnect (s : ServerState) (sid : String) (sock : SocketState)
    (hsock : findA s.sockets sid = some sock)
    (hnr : (s.rooms.map Prod.fst).Nodup)
    (hnp : ∀ rn room, findA s.rooms rn = some room →
      (room.participants.map Prod.fst).Nodup) :
    (sock.roomName = none →
      (step s (.disconnect sid)).1.rooms = s.rooms ∧
      (step s (.disconnect sid)).2 = []) ∧
    (∀ rn, sock.roomName = some rn → findA s.rooms rn = none →
      (step s (.disconnect sid)).1.rooms = s.rooms ∧
      (step s (.disconnect sid)).2 = []) ∧
    (sock.roomName = some "" →
      (step s (.disconnect sid)).1.rooms = s.rooms ∧
      (step s (.disconnect sid)).2 = []) ∧
    (∀ rn room, sock.roomName = some rn → rn ≠ "" → findA s.rooms rn = some room →
      findA (step s (.disconnect sid)).1.rooms rn =
        (if (eraseA room.participants sid).isEmpty then none
         else some ⟨room.name, eraseA room.participants sid, room.createdAt⟩) ∧
      findA (eraseA room.participants sid) sid = none ∧
      (∀ sid2, sid2 ≠ sid →
        findA (eraseA room.participants sid) sid2 = findA room.participants sid2) ∧
      (∀ rn2, rn2 ≠ rn →
        findA (step s (.disconnect sid)).1.rooms rn2 = findA s.rooms rn2) ∧
      (step s (.disconnect sid)).2 =
        [⟨"user-left", broadcastTo (step s (.disconnect sid)).1 sid rn,
          .userLeft sid sock.participantName⟩] ∧
      sid ∉ broadcastTo (step s (.disconnect sid)).1 sid rn) := by
  refine ⟨?_, ?_, ?_, ?_⟩
  · intro h
    simp [step, hsock, h]
  · intro rn h hroom
    by_cases hrne : rn = ""
    · simp [step, hsock, h, hrne]
    · simp [step, hsock, h, hrne, hroom]
  · intro h
    simp [step, hsock, h]
  · intro rn room h hrne hroom
    have hpn := hnp rn room hroom
    have hstate : (step s (.disconnect sid)).1 =
        { rooms := if (eraseA room.participants sid).isEmpty
                   then eraseA s.rooms rn
                   else setA s.rooms rn ⟨room.name, eraseA room.participants sid,
                     room.createdAt⟩,
          sockets := eraseA s.sockets sid } := by
      by_cases hemp : (eraseA room.participants sid).isEmpty = true
      · simp [step, hsock, h, hrne, hroom, hemp]
      · simp [step, hsock, h, hrne, hroom, hemp]
    have hemits : (step s (.disconnect sid)).2 =
        [⟨"user-left", broadcastTo (step s (.disconnect sid)).1 sid rn,
          .userLeft sid sock.participantName⟩] := by
      by_cases hemp : (eraseA room.participants sid).isEmpty = true
      · simp [step, hsock, h, hrne, hroom, hemp, broadcastTo, roomMembers]
      · simp [step, hsock, h, hrne, hroom, hemp, broadcastTo, roomMembers]
    refine ⟨?_, findA_eraseA_self _ _ hpn,
            fun sid2 h2 => findA_eraseA_ne _ _ _ h2, ?_, hemits, ?_⟩
    · rw [hstate]
      by_cases hemp : (eraseA room.participants sid).isEmpty = true
      · simp only [hemp, if_true]
        exact findA_eraseA_self _ _ hnr
      · simp only [hemp, if_false]
        exact findA_setA_self _ _ _
    · intro rn2 h2
      rw [hstate]
      by_cases hemp : (eraseA room.participants sid).isEmpty = true
      · simp only [hemp, if_true]
        exact findA_eraseA_ne _ _ _ h2
      · simp only [hemp, if_false]
        exact findA_setA_ne _ _ _ _ h2
    · simp [broadcastTo, List.mem_filter]

/-- Witness for `C4_disconnect`: in a state with "a" and "b" in room
"R", "a" disconnects; its entry is removed while "b" survives, and "b"
receives the `user-left`. -/
theorem C4_disconnect_witness :
    (findA (run initState (c2WitnessTrace.take 4)).sockets "a" =
      some ⟨"a", some "R", some "Alice", ["a", "R"]⟩) ∧
    findA (eraseA (Room.mk "R"
      [("a", ⟨"a", "Alice", 0⟩), ("b", ⟨"b", "Bob", 1⟩)] 0).participants "a") "a" =
      none := by
  refine ⟨by decide, ?_⟩
  obtain ⟨-, -, -, h3⟩ :=
    C4_disconnect (run initState (c2WitnessTrace.take 4)) "a"
      ⟨"a", some "R", some "Alice", ["a", "R"]⟩ (by decide) (by decide)
      (by
        intro rn room hr
        simp only [findA] at hr
        split at hr
        · cases hr
          decide
        · cases hr)
  obtain ⟨-, h, -⟩ := h3 "R"
    (Room.mk "R" [("a", ⟨"a", "Alice", 0⟩), ("b", ⟨"b", "Bob", 1⟩)] 0)
    (by decide) (by decide) (by decide)
  exact h

/-- The trace reaching the pathological empty-named room: one socket
joins the room named "". -/
def emptyRoomTrace : List Event := [.connect "a", .joinRoom "a" "" "n" 0]

/-- C4 (counterexample): a socket that joined the room named "" and
then disconnects is NOT removed from that room's participant map and no
`user-left` is emitted — `if (socket.roomName)` is falsy for `""`, so
the cleanup is skipped and the stale entry persists. -/
theorem C4_disconnect_counterexample :
    step (run initState emptyRoomTrace) (.disconnect "a") =
      ({ rooms := [("", ⟨"", [("a", ⟨"a", "n", 0⟩)], 0⟩)], sockets := [] }, []) := by
  decide

/-- C5: an explicit `leave-room` from a socket whose recorded room has
a non-empty name and exists in the directory removes the socket's entry
from that room's participant map and emits `user-left` with the
socket's id and recorded name to the remaining members (never to the
leaver), leaving every other room unchanged and the room itself in
place.  A `leave-room` from a socket with no recorded room, or whose
recorded room is absent from the directory, changes no state and emits
nothing; and for a recorded room named `""` the handler body is skipped
(`if (socket.roomName)` is falsy), so the state is also unchanged and
the entry is not removed. -/
theorem C5_leave_room (s : ServerState) (sid : String) (sock : SocketState)
    (hsock : findA s.sockets sid = some sock)
    (hnp : ∀ rn room, findA s.rooms rn = some room →
      (room.participants.map Prod.fst).Nodup) :
    (sock.roomName = none → step s (.leaveRoom sid) = (s, [])) ∧
    (∀ rn, sock.roomName = some rn → findA s.rooms rn = none →
      step s (.leaveRoom sid) = (s, [])) ∧
    (sock.roomName = some "" → step s (.leaveRoom sid) = (s, [])) ∧
    (∀ rn room, sock.roomName = some rn → rn ≠ "" → findA s.rooms rn = some room →
      findA (step s (.leaveRoom sid)).1.rooms rn =
        some ⟨room.name, eraseA room.participants sid, room.createdAt⟩ ∧
      findA (eraseA room.participants sid) sid = none ∧
      (∀ sid2, sid2 ≠ sid →
        findA (eraseA room.participants sid) sid2 = findA room.participants sid2) ∧
      (∀ rn2, rn2 ≠ rn →
        findA (step s (.leaveRoom sid)).1.rooms rn2 = findA s.rooms rn2) ∧
      (step s (.leaveRoom sid)).2 =
        [⟨"user-left", broadcastTo s sid rn, .userLeft sid sock.participantName⟩] ∧
      sid ∉ broadcastTo s sid rn) := by
  refine ⟨?_, ?_, ?_, ?_⟩
  · intro h
    simp [step, hsock, h]
  · intro rn h hroom
    by_cases hrne : rn = ""
    · simp [step, hsock, h, hrne]
    · simp [step, hsock, h, hrne, hroom]
  · intro h
    simp [step, hsock, h]
  · intro rn room h hrne hroom
    have hpn := hnp rn room hroom
    have hstate : (step s (.leaveRoom sid)).1 =
        { rooms := setA s.rooms rn
            ⟨room.name, eraseA room.participants sid, room.createdAt⟩,
          sockets := setA s.sockets sid
            ⟨sock.id, sock.roomName, sock.participantName,
             sock.sioRooms.erase rn⟩ } := by
      simp [step, hsock, h, hrne, hroom]
    refine ⟨?_, findA_eraseA_self _ _ hpn,
            fun sid2 h2 => findA_eraseA_ne _ _ _ h2, ?_, ?_, ?_⟩
    · rw [hstate]
      exact findA_setA_self _ _ _
    · intro rn2 h2
      rw [hstate]
      exact findA_setA_ne _ _ _ _ h2
    · simp [step, hsock, h, hrne, hroom]
    · simp [broadcastTo, List.mem_filter]

/-- Witness for `C5_leave_room`: "a" leaves room "R" (shared with "b");
its entry is removed, the room survives, and "b" gets the `user-left`. -/
theorem C5_leave_room_witness :
    findA (step (run initState (c2WitnessTrace.take 4)) (.leaveRoom "a")).1.rooms "R" =
      some ⟨"R", [("b", ⟨"b", "Bob", 1⟩)], 0⟩ ∧
    (step (run initState (c2WitnessTrace.take 4)) (.leaveRoom "a")).2 =
      [⟨"user-left", ["b"], .userLeft "a" (some "Alice")⟩] := by
  obtain ⟨-, -, -, h3⟩ :=
    C5_leave_room (run initState (c2WitnessTrace.take 4)) "a"
      ⟨"a", some "R", some "Alice", ["a", "R"]⟩ (by decide)
      (by
        intro rn room hr
        simp only [findA] at hr
        split at hr
        · cases hr
          decide
        · cases hr)
  obtain ⟨h1, -, -, -, h5, -⟩ := h3 "R"
    (Room.mk "R" [("a", ⟨"a", "Alice", 0⟩), ("b", ⟨"b", "Bob", 1⟩)] 0)
    (by decide) (by decide) (by decide)
  constructor
  · rw [h1]
    decide
  · rw [h5]
    decide

/-- C5 (counterexample): a socket whose recorded room is "" — a room
that exists in the directory and holds the socket's entry — sends
`leave-room`, and nothing happens: the entry is not removed, no
`user-left` is emitted and the state is returned unchanged, because
`if (socket.roomName)` is falsy for `""`. -/
theorem C5_leave_room_counterexample :
    findA (run initState emptyRoomTrace).sockets "a" =
      some ⟨"a", some "", some "n", ["a", ""]⟩ ∧
    (∃ room, findA (run initState emptyRoomTrace).rooms "" = some room ∧
      (findA room.participants "a").isSome = true) ∧
    step (run initState emptyRoomTrace) (.leaveRoom "a") =
      (run initState emptyRoomTrace, []) := by
  refine ⟨by decide, ⟨⟨"", [("a", ⟨"a", "n", 0⟩)], 0⟩, by decide, by decide⟩, by decide⟩

/-- C7: `GET /api/rooms/:roomName` returns 404 with
`{error: 'Room not found'}` exactly when the named room is absent from
the directory; otherwise it returns the room's name, its participant
count, the list of its participants' socket ids and its creation time.
The request returns the directory unchanged (in particular it does not
create the room). -/
theorem C7_get_room_api (s : ServerState) (rn : String) :
    (getRoomApi s rn).2 = s ∧
    ((getRoomApi s rn).1 = .notFound "Room not found" ↔ findA s.rooms rn = none) ∧
    (∀ room, findA s.rooms rn = some room →
      (getRoomApi s rn).1 = .roomInfo room.name room.participants.length
        (room.participants.map Prod.fst) room.createdAt) := by
  cases h : findA s.rooms rn with
  | none =>
      refine ⟨by simp [getRoomApi, h], by simp [getRoomApi, h], ?_⟩
      intro room hr
      cases hr
  | some room =>
      refine ⟨by simp [getRoomApi, h], by simp [getRoomApi, h], ?_⟩
      intro room2 hr
      cases hr
      simp [getRoomApi, h]

/-- Witness for `C7_get_room_api`: the missing room "X" yields the 404
payload, and room "R" with one participant is reported verbatim. -/
theorem C7_get_room_api_witness :
    (getRoomApi (run initState c2WitnessTrace) "X").1 =
      .notFound "Room not found" ∧
    (getRoomApi (run initState c2WitnessTrace) "R").1 =
      .roomInfo "R" 1 ["b"] 0 := by
  constructor
  · exact (C7_get_room_api (run initState c2WitnessTrace) "X").2.1.mpr (by decide)
  · have h := (C7_get_room_api (run initState c2WitnessTrace) "R").2.2
      (Room.mk "R" [("b", ⟨"b", "Bob", 1⟩)] 0) (by decide)
    rw [h]
    decide

/-- C8: empty-room cleanup is asymmetric.  When a disconnect removes
the last participant of a room the room is deleted from the directory,
but when an explicit `leave-room` removes the last participant the
empty room remains, and `GET /api/rooms` subsequently reports it with
`participantCount` 0.  The non-empty-name hypothesis encodes the
claim's premise that a removal takes place: for the room named `""`
neither handler ever removes anything (`if (socket.roomName)` is falsy),
so the claim's conditional is vacuous there. -/
theorem C8_empty_room_cleanup_asymmetry (s : ServerState) (sid rn : String)
    (sock : SocketState) (room : Room)
    (hsock : findA s.sockets sid = some sock)
    (hrn : sock.roomName = some rn)
    (hrne : rn ≠ "")
    (hroom : findA s.rooms rn = some room)
    (hname : room.name = rn)
    (hnr : (s.rooms.map Prod.fst).Nodup)
    (hlast : eraseA room.participants sid = []) :
    findA (step s (.disconnect sid)).1.rooms rn = none ∧
    findA (step s (.leaveRoom sid)).1.rooms rn =
      some ⟨room.name, [], room.createdAt⟩ ∧
    (rn, 0, room.createdAt) ∈ listRoomsApi (step s (.leaveRoom sid)).1 := by
  have hstateD : (step s (.disconnect sid)).1 =
      { rooms := eraseA s.rooms rn, sockets := eraseA s.sockets sid } := by
    simp [step, hsock, hrn, hrne, hroom, hlast]
  have hstateL : (step s (.leaveRoom sid)).1 =
      { rooms := setA s.rooms rn ⟨room.name, [], room.createdAt⟩,
        sockets := setA s.sockets sid
          ⟨sock.id, sock.roomName, sock.participantName,
           sock.sioRooms.erase rn⟩ } := by
    simp [step, hsock, hrn, hrne, hroom, hlast]
  refine ⟨?_, ?_, ?_⟩
  · rw [hstateD]
    exact findA_eraseA_self _ _ hnr
  · rw [hstateL]
    exact findA_setA_self _ _ _
  · rw [hstateL]
    have hmem : (rn, (⟨room.name, [], room.createdAt⟩ : Room)) ∈
        setA s.rooms rn ⟨room.name, [], room.createdAt⟩ :=
      findA_mem _ _ _ (findA_setA_self _ _ _)
    have := List.mem_map_of_mem
      (fun p : String × Room => (p.2.name, p.2.participants.length, p.2.createdAt)) hmem
    simpa [listRoomsApi, hname] using this

/-- Witness for `C8_empty_room_cleanup_asymmetry`: "b" is alone in room
"R"; a disconnect deletes the room while a `leave-room` keeps it with
`participantCount` 0. -/
theorem C8_empty_room_cleanup_asymmetry_witness :
    findA (step (run initState c2WitnessTrace) (.disconnect "b")).1.rooms "R" = none ∧
    findA (step (run initState c2WitnessTrace) (.leaveRoom "b")).1.rooms "R" =
      some ⟨"R", [], 0⟩ ∧
    ("R", 0, 0) ∈ listRoomsApi (step (run initState c2WitnessTrace) (.leaveRoom "b")).1 := by
  obtain ⟨h1, h2, h3⟩ :=
    C8_empty_room_cleanup_asymmetry (run initState c2WitnessTrace) "b" "R"
      ⟨"b", some "R", some "Bob", ["b", "R"]⟩
      (Room.mk "R" [("b", ⟨"b", "Bob", 1⟩)] 0)
      (by decide) (by decide) (by decide) (by decide) (by decide) (by decide)
      (by decide)
  exact ⟨h1, h2, h3⟩

/-- Whenever a socket with a recorded room that is present in the
directory disconnects, a single `user-left` event is emitted for it —
whether or not the socket is still in the room's participant map. -/
theorem step_disconnect_emits (s : ServerState) (sid rn : String)
    (sock : SocketState) (room : Room)
    (hsock : findA s.sockets sid = some sock)
    (hrn : sock.roomName = some rn)
    (hrne : rn ≠ "")
    (hroom : findA s.rooms rn = some room) :
    (step s (.disconnect sid)).2 =
      [⟨"user-left", broadcastTo (step s (.disconnect sid)).1 sid rn,
        .userLeft sid sock.participantName⟩] := by
  by_cases hemp : (eraseA room.participants sid).isEmpty = true
  · simp [step, hsock, hrn, hrne, hroom, hemp, broadcastTo, roomMembers]
  · simp [step, hsock, hrn, hrne, hroom, hemp, broadcastTo, roomMembers]

/-- C9: for a recorded room with a non-empty name, an explicit
`leave-room` does not clear the socket's recorded room association:
after leaving, the socket's `roomName` (and recorded name) are intact
while its participant entry is gone, and a subsequent disconnect emits
a second `user-left` for the socket to the same room, even though the
socket is no longer in the room's participant map.  (For the room named
`""` both handlers are skipped and no `user-left` is emitted at all.) -/
theorem C9_stale_room_association (s : ServerState) (sid rn : String)
    (sock : SocketState) (room : Room)
    (hsock : findA s.sockets sid = some sock)
    (hrn : sock.roomName = some rn)
    (hrne : rn ≠ "")
    (hroom : findA s.rooms rn = some room)
    (hpn : (room.participants.map Prod.fst).Nodup) :
    (step s (.leaveRoom sid)).2 =
      [⟨"user-left", broadcastTo s sid rn, .userLeft sid sock.participantName⟩] ∧
    (∃ sock1, findA (step s (.leaveRoom sid)).1.sockets sid = some sock1 ∧
      sock1.roomName = some rn ∧ sock1.participantName = sock.participantName) ∧
    (∃ room1, findA (step s (.leaveRoom sid)).1.rooms rn = some room1 ∧
      findA room1.participants sid = none) ∧
    (∃ recips, (step (step s (.leaveRoom sid)).1 (.disconnect sid)).2 =
      [⟨"user-left", recips, .userLeft sid sock.participantName⟩]) := by
  have hstate : (step s (.leaveRoom sid)).1 =
      { rooms := setA s.rooms rn
          ⟨room.name, eraseA room.participants sid, room.createdAt⟩,
        sockets := setA s.sockets sid
          ⟨sock.id, some rn, sock.participantName, sock.sioRooms.erase rn⟩ } := by
    simp [step, hsock, hrn, hrne, hroom]
  refine ⟨by simp [step, hsock, hrn, hrne, hroom], ?_, ?_, ?_⟩
  · refine ⟨⟨sock.id, some rn, sock.participantName, sock.sioRooms.erase rn⟩,
      ?_, rfl, rfl⟩
    rw [hstate]
    exact findA_setA_self _ _ _
  · refine ⟨⟨room.name, eraseA room.participants sid, room.createdAt⟩, ?_, ?_⟩
    · rw [hstate]
      exact findA_setA_self _ _ _
    · exact findA_eraseA_self _ _ hpn
  · have h4 := step_disconnect_emits (step s (.leaveRoom sid)).1 sid rn
      ⟨sock.id, some rn, sock.participantName, sock.sioRooms.erase rn⟩
      ⟨room.name, eraseA room.participants sid, room.createdAt⟩
      (by rw [hstate]; exact findA_setA_self _ _ _)
      rfl
      hrne
      (by rw [hstate]; exact findA_setA_self _ _ _)
    exact ⟨_, h4⟩

/-- Witness for `C9_stale_room_association`: "a" leaves room "R" and
then disconnects; a second `user-left` for "a" is emitted (delivered to
"b", which is still in the room). -/
theorem C9_stale_room_association_witness :
    (step (run initState (c2WitnessTrace.take 4)) (.leaveRoom "a")).2 =
      [⟨"user-left", ["b"], .userLeft "a" (some "Alice")⟩] ∧
    (∃ recips,
      (step (step (run initState (c2WitnessTrace.take 4)) (.leaveRoom "a")).1
        (.disconnect "a")).2 =
      [⟨"user-left", recips, .userLeft "a" (some "Alice")⟩]) := by
  obtain ⟨h1, -, -, h4⟩ :=
    C9_stale_room_association (run initState (c2WitnessTrace.take 4)) "a" "R"
      ⟨"a", some "R", some "Alice", ["a", "R"]⟩
      (Room.mk "R" [("a", ⟨"a", "Alice", 0⟩), ("b", ⟨"b", "Bob", 1⟩)] 0)
      (by decide) (by decide) (by decide) (by decide) (by decide)
  constructor
  · rw [h1]
    decide
  · exact h4

/-- C9 (counterexample): a socket whose recorded room is "" sends
`leave-room` and later disconnects while the room named "" still exists
in the directory, yet not a single `user-left` is emitted in the whole
history (let alone a second one): both handlers are skipped on the
falsy empty-string `socket.roomName`. -/
theorem C9_stale_room_association_counterexample :
    (∃ room, findA (run initState (emptyRoomTrace ++ [.leaveRoom "a"])).rooms "" =
      some room) ∧
    runEmits initState (emptyRoomTrace ++ [.leaveRoom "a", .disconnect "a"]) =
      [⟨"user-joined", [], .userJoined "a" "n"⟩,
       ⟨"room-joined", ["a"], .roomJoined "" [] "a"⟩] := by
  exact ⟨⟨⟨"", [("a", ⟨"a", "n", 0⟩)], 0⟩, by decide⟩, by decide⟩
